import Mathlib

/-!
Verification of the ReRevolve credential-extraction core.

Shallow embedding of the source:
* `src/unnamed/part_003` (`TokenService`): protobuf TLV decoder (`readVarint`,
  `skipField`, `findField`, `parseOAuthTokenInfo`), extraction strategies
  (`getAuthStatus`, `extractTokensWithProtobuf`, `extractTokensFromDb`), and the
  per-account credential lifecycle (`captureCurrentToken`, `getToken`,
  `hasToken`, `tryAutoRecovery`, `refreshAccessToken`).
* `src/extension/src/account-switcher.ts` (`AccountSwitcher`): snapshot lookup
  and `switchToAccount` / `updateAuthStatus`.

Modelling conventions:
* `Buffer` is `List Nat` (one entry per byte value).  JavaScript's
  `b & 0x7f` equals `b % 128` and `(b & 0x80) === 0` equals `b % 256 < 128`
  for every natural number `b`, so the decoder uses `%` for the bit masks.
* JavaScript number arithmetic is modelled by exact `Nat`/`Int` arithmetic
  (the spec documents the float-precision limit as out of scope).
* Thrown exceptions are modelled with `Except String`; a `try/catch` in the
  source becomes a `match` on the `Except` value.
* External effects (the SQLite row values, the file contents, `JSON.parse` of
  host-controlled strings, the network refresh exchange) are inputs of the
  embedded functions.
-/

namespace ReRevolve

/-- A byte buffer: `Buffer` from the source, one `Nat` per byte. -/
abbrev Bytes := List Nat

/-! ## TLV decoder (`TokenService.readVarint`, lines 213–227) -/

/-- Loop body of `readVarint`: walks the suffix of the buffer starting at
`pos`, accumulating 7-bit groups LSB-first.  `result += (byte & 0x7f) * 2^shift`
and the continuation test `(byte & 0x80) === 0` are rendered with `%` as
explained in the header.  Running off the end throws `Incomplete varint`. -/
def readVarintGo : List Nat → Nat → Nat → Nat → Except String (Nat × Nat)
  | [], _, _, _ => .error "Incomplete varint"
  | b :: rest, pos, result, shift =>
    let result1 := result + b % 128 * 2 ^ shift
    if b % 256 < 128 then .ok (result1, pos + 1)
    else readVarintGo rest (pos + 1) result1 (shift + 7)

/-- `readVarint(data, offset)` returns `(value, nextOffset)` or throws. -/
def readVarint (data : Bytes) (offset : Nat) : Except String (Nat × Nat) :=
  readVarintGo (data.drop offset) offset 0 0

/-- `TokenService.skipField` (lines 232–248): advances past one field value of
the given wire type, throwing `Unknown wire type` outside {0,1,2,5}. -/
def skipField (data : Bytes) (offset wireType : Nat) : Except String Nat :=
  if wireType = 0 then
    match readVarint data offset with
    | .ok (_, newOffset) => .ok newOffset
    | .error e => .error e
  else if wireType = 1 then .ok (offset + 8)
  else if wireType = 2 then
    match readVarint data offset with
    | .ok (length, contentOffset) => .ok (contentOffset + length)
    | .error e => .error e
  else if wireType = 5 then .ok (offset + 4)
  else .error ("Unknown wire type: " ++ toString wireType)

theorem readVarintGo_lt : ∀ (l : List Nat) (pos result shift v p : Nat),
    readVarintGo l pos result shift = .ok (v, p) → pos < p := by
  intro l
  induction l with
  | nil => intro pos result shift v p h; simp [readVarintGo] at h
  | cons b rest ih =>
    intro pos result shift v p h
    simp only [readVarintGo] at h
    split at h
    · cases h; omega
    · have := ih _ _ _ _ _ h; omega

theorem readVarint_lt {data : Bytes} {offset v p : Nat}
    (h : readVarint data offset = .ok (v, p)) : offset < p :=
  readVarintGo_lt _ _ _ _ _ _ h

theorem skipField_lt {data : Bytes} {offset wireType n : Nat}
    (h : skipField data offset wireType = .ok n) : offset < n := by
  unfold skipField at h
  split at h
  · cases hv : readVarint data offset with
    | ok r => rw [hv] at h; cases r; cases h; exact readVarint_lt hv
    | error e => rw [hv] at h; cases h
  split at h
  · cases h; omega
  split at h
  · cases hv : readVarint data offset with
    | ok r =>
      rw [hv] at h; obtain ⟨len, co⟩ := r; cases h
      exact Nat.lt_of_lt_of_le (readVarint_lt hv) (Nat.le_add_right _ _)
    | error e => rw [hv] at h; cases h
  split at h
  · cases h; omega
  · cases h

/-! ## Field locator and structured reader (lines 253–307) -/

/-- Loop of `TokenService.findField` (lines 253–272).  The `try` in the source
covers only the tag read, so a failing tag read breaks the loop (returning
`undefined`), while the length read and `skipField` can still throw. -/
def findFieldLoop (data : Bytes) (targetField : Nat) (offset : Nat) :
    Except String (Option Bytes) :=
  if h : offset < data.length then
    match hv : readVarint data offset with
    | .error _ => .ok none
    | .ok (tag, newOffset) =>
      if tag / 8 = targetField ∧ tag % 8 = 2 then
        match readVarint data newOffset with
        | .ok (length, contentOffset) =>
          .ok (some ((data.drop contentOffset).take length))
        | .error e => .error e
      else
        match hs : skipField data newOffset (tag % 8) with
        | .ok next => findFieldLoop data targetField next
        | .error e => .error e
  else .ok none
termination_by data.length - offset
decreasing_by
  have h1 := readVarint_lt hv
  have h2 := skipField_lt hs
  omega

/-- `TokenService.findField(data, targetField)`. -/
def findField (data : Bytes) (targetField : Nat) : Except String (Option Bytes) :=
  findFieldLoop data targetField 0

/-- Result record of `parseOAuthTokenInfo`; token payloads are kept as the raw
bytes of the length-delimited field (`value.toString()` in the source is the
UTF-8 view of exactly these bytes). -/
structure OAuthInfo where
  accessToken : Option Bytes := none
  refreshToken : Option Bytes := none
deriving DecidableEq

/-- Loop of `TokenService.parseOAuthTokenInfo` (lines 277–307).  The `try`
covers the whole loop body, so any decoder error breaks the loop and the
fields collected so far are returned. -/
def parseOAuthLoop (data : Bytes) (offset : Nat) (info : OAuthInfo) : OAuthInfo :=
  if h : offset < data.length then
    match hv : readVarint data offset with
    | .error _ => info
    | .ok (tag, newOffset) =>
      if tag % 8 = 2 then
        match hv2 : readVarint data newOffset with
        | .error _ => info
        | .ok (length, contentOffset) =>
          let value := (data.drop contentOffset).take length
          let info1 :=
            if tag / 8 = 1 then { info with accessToken := some value }
            else if tag / 8 = 3 then { info with refreshToken := some value }
            else info
          parseOAuthLoop data (contentOffset + length) info1
      else
        match hs : skipField data newOffset (tag % 8) with
        | .error _ => info
        | .ok next => parseOAuthLoop data next info
  else info
termination_by data.length - offset
decreasing_by
  · have h1 := readVarint_lt hv
    have h2 := readVarint_lt hv2
    omega
  · have h1 := readVarint_lt hv
    have h2 := skipField_lt hs
    omega

/-- `TokenService.parseOAuthTokenInfo(data)`: field 1 is the access token,
field 3 the refresh token. -/
def parseOAuthTokenInfo (data : Bytes) : OAuthInfo :=
  parseOAuthLoop data 0 {}

/-- Repeated application of tag read plus `skipField` from a given offset:
the iteration scheme shared by `findField` and `parseOAuthTokenInfo`, with
errors propagated so that termination at the buffer length is observable. -/
def scanFields (data : Bytes) (offset : Nat) : Except String Nat :=
  if h : offset < data.length then
    match hv : readVarint data offset with
    | .error e => .error e
    | .ok (tag, newOffset) =>
      match hs : skipField data newOffset (tag % 8) with
      | .error e => .error e
      | .ok next => scanFields data next
  else .ok offset
termination_by data.length - offset
decreasing_by
  have h1 := readVarint_lt hv
  have h2 := skipField_lt hs
  omega

/-! ## Well-formed TLV messages (specification side)

The source only decodes; the claims quantify over "well-formed TLV buffers",
so the standard protobuf encoding is defined here as the specification of
well-formedness: a buffer is well-formed iff it is `encodeMessage fields` for
some list of fields whose fixed-width values have the right width. -/

/-- LSB-first base-128 varint encoding. -/
def encodeVarint (n : Nat) : List Nat :=
  if n < 128 then [n] else (n % 128 + 128) :: encodeVarint (n / 128)
termination_by n
decreasing_by exact Nat.div_lt_self (by omega) (by norm_num)

/-- A TLV field value, one constructor per wire type. -/
inductive FieldVal where
  | vint (n : Nat)
  | i64 (bs : List Nat)
  | ld (payload : List Nat)
  | i32 (bs : List Nat)
deriving DecidableEq

/-- Wire type of a value: varint 0, 64-bit 1, length-delimited 2, 32-bit 5. -/
def FieldVal.wire : FieldVal → Nat
  | .vint _ => 0
  | .i64 _ => 1
  | .ld _ => 2
  | .i32 _ => 5

/-- Encoding of a field value (without the tag). -/
def FieldVal.enc : FieldVal → List Nat
  | .vint n => encodeVarint n
  | .i64 bs => bs
  | .ld p => encodeVarint p.length ++ p
  | .i32 bs => bs

/-- A top-level TLV field: field number plus value. -/
structure PField where
  num : Nat
  val : FieldVal
deriving DecidableEq

/-- Width constraint making a field well-formed: 64-bit values are 8 bytes and
32-bit values are 4 bytes. -/
def PField.wfb (f : PField) : Bool :=
  match f.val with
  | .i64 bs => bs.length == 8
  | .i32 bs => bs.length == 4
  | _ => true

/-- Tag-prefixed encoding of one field. -/
def encodeField (f : PField) : List Nat :=
  encodeVarint (f.num * 8 + f.val.wire) ++ f.val.enc

/-- Encoding of a sequence of top-level fields. -/
def encodeMessage (fields : List PField) : List Nat :=
  (fields.map encodeField).join

/-- Payload of the first length-delimited occurrence of field `target`:
the reference answer `findField` is compared against. -/
def firstLD (fields : List PField) (target : Nat) : Option Bytes :=
  fields.findSome? fun f =>
    match f.val with
    | .ld p => if f.num = target then some p else none
    | _ => none

theorem encodeVarint_ne_nil (n : Nat) : encodeVarint n ≠ [] := by
  rw [encodeVarint]
  split <;> simp

/-- Decoding a varint placed at offset `pre.length` recovers the value and
advances exactly past its encoding. -/
theorem readVarintGo_encode (n : Nat) :
    ∀ (rest : List Nat) (pos result shift : Nat),
      readVarintGo (encodeVarint n ++ rest) pos result shift =
        .ok (result + n * 2 ^ shift, pos + (encodeVarint n).length) := by
  induction n using Nat.strong_induction_on with
  | _ n ih =>
    intro rest pos result shift
    rw [encodeVarint]
    by_cases h : n < 128
    · simp only [if_pos h, List.cons_append, List.nil_append, readVarintGo,
        List.length_cons, List.length_nil]
      have h1 : n % 128 = n := Nat.mod_eq_of_lt h
      have h2 : n % 256 = n := Nat.mod_eq_of_lt (by omega)
      rw [h1, h2, if_pos h]
    · simp only [if_neg h, List.cons_append, readVarintGo, List.length_cons]
      have hb : (n % 128 + 128) % 256 = n % 128 + 128 :=
        Nat.mod_eq_of_lt (by have := Nat.mod_lt n (y := 128) (by omega); omega)
      rw [hb, if_neg (by omega)]
      have hm : (n % 128 + 128) % 128 = n % 128 := by omega
      rw [hm, ih (n / 128) (Nat.div_lt_self (by omega) (by norm_num)) rest]
      congr 2
      · have : n % 128 * 2 ^ shift + n / 128 * 2 ^ (shift + 7)
            = n * 2 ^ shift := by
          rw [pow_add]
          calc n % 128 * 2 ^ shift + n / 128 * (2 ^ shift * 2 ^ 7)
              = (n % 128 + 128 * (n / 128)) * 2 ^ shift := by ring
            _ = n * 2 ^ shift := by rw [Nat.mod_add_div]
        omega
      · omega

theorem readVarint_encode (pre : List Nat) (n : Nat) (rest : List Nat) :
    readVarint (pre ++ (encodeVarint n ++ rest)) pre.length =
      .ok (n, pre.length + (encodeVarint n).length) := by
  unfold readVarint
  rw [List.drop_left, readVarintGo_encode]
  simp

/-- `skipField` at the start of a well-formed field value advances exactly
past that value. -/
theorem skipField_encodeVal (f : PField) (hwf : f.wfb = true)
    (pre rest : List Nat) :
    skipField (pre ++ (f.val.enc ++ rest)) pre.length f.val.wire =
      .ok (pre.length + f.val.enc.length) := by
  cases hv : f.val with
  | vint n =>
    have h1 := readVarint_encode pre n rest
    simp [FieldVal.wire, FieldVal.enc, skipField, h1]
  | i64 bs =>
    have h8 : bs.length = 8 := by
      have := hwf; unfold PField.wfb at this; rw [hv] at this; simpa using this
    simp [FieldVal.wire, FieldVal.enc, skipField, h8]
  | ld p =>
    have hd : pre ++ ((encodeVarint p.length ++ p) ++ rest)
        = pre ++ (encodeVarint p.length ++ (p ++ rest)) := by
      simp [List.append_assoc]
    have h1 := readVarint_encode pre p.length (p ++ rest)
    simp only [FieldVal.wire, FieldVal.enc, skipField, hd, h1]
    norm_num [List.length_append]
    omega
  | i32 bs =>
    have h4 : bs.length = 4 := by
      have := hwf; unfold PField.wfb at this; rw [hv] at this; simpa using this
    simp [FieldVal.wire, FieldVal.enc, skipField, h4]

theorem encodeField_ne_nil (f : PField) : encodeField f ≠ [] := by
  unfold encodeField
  intro h
  exact encodeVarint_ne_nil _ (List.append_eq_nil.mp h).1

/-- The tag of an encoded field decodes back to its number and wire type. -/
theorem wire_lt_8 (v : FieldVal) : v.wire < 8 := by
  cases v <;> simp [FieldVal.wire]

theorem tag_div (f : PField) : (f.num * 8 + f.val.wire) / 8 = f.num := by
  have := wire_lt_8 f.val; omega

theorem tag_mod (f : PField) : (f.num * 8 + f.val.wire) % 8 = f.val.wire := by
  have := wire_lt_8 f.val; omega

/-- `scanFields` over a well-formed message starting at the end of a prefix
terminates exactly at the buffer length. -/
theorem scanFields_encode :
    ∀ (fields : List PField) (pre : List Nat),
      (∀ f ∈ fields, f.wfb = true) →
      scanFields (pre ++ encodeMessage fields) pre.length =
        .ok (pre ++ encodeMessage fields).length := by
  intro fields
  induction fields with
  | nil =>
    intro pre _
    rw [scanFields]
    simp [encodeMessage]
  | cons f fs ih =>
    intro pre hwf
    have hdata : pre ++ encodeMessage (f :: fs)
        = pre ++ (encodeVarint (f.num * 8 + f.val.wire) ++ (f.val.enc ++ encodeMessage fs)) := by
      simp [encodeMessage, encodeField, List.append_assoc]
    rw [scanFields]
    have hlt : pre.length < (pre ++ encodeMessage (f :: fs)).length := by
      have : encodeMessage (f :: fs) ≠ [] := by
        simp only [encodeMessage, List.map_cons, List.join]
        intro h
        exact encodeField_ne_nil f (List.append_eq_nil.mp h).1
      simp only [List.length_append]
      have := List.length_pos.mpr this
      omega
    rw [dif_pos hlt]
    have hv := readVarint_encode pre (f.num * 8 + f.val.wire) (f.val.enc ++ encodeMessage fs)
    rw [← hdata] at hv
    rw [hv]
    have hskip := skipField_encodeVal f (hwf f (by simp)) (pre ++ encodeVarint (f.num * 8 + f.val.wire)) (encodeMessage fs)
    rw [List.append_assoc, ← hdata, List.length_append] at hskip
    have heq : pre.length + (encodeVarint (f.num * 8 + f.val.wire)).length + f.val.enc.length
        = (pre ++ encodeField f).length := by
      simp [encodeField, List.length_append]; omega
    have hmsg : pre ++ encodeMessage (f :: fs) = (pre ++ encodeField f) ++ encodeMessage fs := by
      simp [encodeMessage, List.append_assoc]
    split
    · rename_i e hs2
      cases hs2
    · rename_i tag newOffset hs2
      cases hs2
      split
      · rename_i e hs3
        rw [tag_mod] at hs3
        rw [hskip] at hs3
        cases hs3
      · rename_i next hs3
        rw [tag_mod] at hs3
        rw [hskip] at hs3
        cases hs3
        rw [heq, hmsg]
        exact ih (pre ++ encodeField f) (fun g hg => hwf g (by simp [hg]))

theorem tag_div' (num w : Nat) (hw : w < 8) : (num * 8 + w) / 8 = num := by
  omega

theorem tag_mod' (num w : Nat) (hw : w < 8) : (num * 8 + w) % 8 = w := by
  omega

/-- `findField` over a well-formed message returns the payload of the first
length-delimited occurrence of the target field number (and `none` when there
is none). -/
theorem findFieldLoop_encode :
    ∀ (fields : List PField) (pre : List Nat) (target : Nat),
      (∀ f ∈ fields, f.wfb = true) →
      findFieldLoop (pre ++ encodeMessage fields) target pre.length =
        .ok (firstLD fields target) := by
  intro fields
  induction fields with
  | nil =>
    intro pre target _
    rw [findFieldLoop]
    simp [encodeMessage, firstLD]
  | cons f fs ih =>
    intro pre target hwf
    obtain ⟨num, val⟩ := f
    have hdata : pre ++ encodeMessage (⟨num, val⟩ :: fs)
        = pre ++ (encodeVarint (num * 8 + val.wire) ++ (val.enc ++ encodeMessage fs)) := by
      simp [encodeMessage, encodeField, List.append_assoc]
    have hlt : pre.length < (pre ++ encodeMessage (⟨num, val⟩ :: fs)).length := by
      have hne : encodeMessage (⟨num, val⟩ :: fs) ≠ [] := by
        simp only [encodeMessage, List.map_cons, List.join]
        intro h
        exact encodeField_ne_nil _ (List.append_eq_nil.mp h).1
      simp only [List.length_append]
      have := List.length_pos.mpr hne
      omega
    have hv := readVarint_encode pre (num * 8 + val.wire) (val.enc ++ encodeMessage fs)
    rw [← hdata] at hv
    rw [findFieldLoop, dif_pos hlt, hv]
    split
    · rename_i e hs2
      cases hs2
    · rename_i tag newOffset hs2
      cases hs2
      rw [tag_div' num val.wire (wire_lt_8 val), tag_mod' num val.wire (wire_lt_8 val)]
      by_cases hc : num = target ∧ val.wire = 2
      · rw [if_pos hc]
        cases val with
        | vint n => simp [FieldVal.wire] at hc
        | i64 bs => simp [FieldVal.wire] at hc
        | i32 bs => simp [FieldVal.wire] at hc
        | ld p =>
          have hdata2 : pre ++ encodeMessage (⟨num, FieldVal.ld p⟩ :: fs)
              = ((pre ++ encodeVarint (num * 8 + (FieldVal.ld p).wire))
                  ++ encodeVarint p.length) ++ (p ++ encodeMessage fs) := by
            simp [encodeMessage, encodeField, FieldVal.enc, List.append_assoc]
          have hv2 := readVarint_encode
            (pre ++ encodeVarint (num * 8 + (FieldVal.ld p).wire)) p.length
            (p ++ encodeMessage fs)
          have hdata3 : pre ++ encodeMessage (⟨num, FieldVal.ld p⟩ :: fs)
              = (pre ++ encodeVarint (num * 8 + (FieldVal.ld p).wire))
                  ++ (encodeVarint p.length ++ (p ++ encodeMessage fs)) := by
            simp [encodeMessage, encodeField, FieldVal.enc, List.append_assoc]
          rw [← hdata3, List.length_append] at hv2
          split
          · rename_i length contentOffset hs3
            rw [hv2] at hs3
            cases hs3
            have hco : (pre ++ encodeVarint (num * 8 + (FieldVal.ld p).wire)).length
                  + (encodeVarint p.length).length
                = ((pre ++ encodeVarint (num * 8 + (FieldVal.ld p).wire))
                    ++ encodeVarint p.length).length := by
              simp only [List.length_append]
            rw [List.length_append] at hco
            rw [hco, hdata2, List.drop_left, List.take_left]
            simp only [firstLD, List.findSome?_cons]
            rw [if_pos hc.1]
          · rename_i e hs3
            rw [hv2] at hs3
            cases hs3
      · rw [if_neg hc]
        have hskip := skipField_encodeVal ⟨num, val⟩ (hwf _ (by simp))
          (pre ++ encodeVarint (num * 8 + val.wire)) (encodeMessage fs)
        rw [List.append_assoc, ← hdata, List.length_append] at hskip
        split
        · rename_i next hs3
          rw [hskip] at hs3
          cases hs3
          have heq : pre.length + (encodeVarint (num * 8 + val.wire)).length
                + val.enc.length
              = (pre ++ encodeField ⟨num, val⟩).length := by
            simp [encodeField, List.length_append]
            omega
          have hmsg : pre ++ encodeMessage (⟨num, val⟩ :: fs)
              = (pre ++ encodeField ⟨num, val⟩) ++ encodeMessage fs := by
            simp [encodeMessage, List.append_assoc]
          rw [heq, hmsg, ih (pre ++ encodeField ⟨num, val⟩) target
            (fun g hg => hwf g (by simp [hg]))]
          congr 1
          simp only [firstLD, List.findSome?_cons]
          cases val with
          | ld p =>
            have hnum : ¬ num = target := fun h => hc ⟨h, rfl⟩
            simp [hnum]
          | vint n => rfl
          | i64 bs => rfl
          | i32 bs => rfl
        · rename_i e hs3
          rw [hskip] at hs3
          cases hs3

theorem findField_encode (fields : List PField) (target : Nat)
    (hwf : ∀ f ∈ fields, f.wfb = true) :
    findField (encodeMessage fields) target = .ok (firstLD fields target) := by
  have h := findFieldLoop_encode fields [] target hwf
  simpa [findField] using h

/-- One field's effect on the token record: length-delimited field 1 sets the
access token, length-delimited field 3 sets the refresh token, everything else
is ignored — the reference answer `parseOAuthTokenInfo` is compared against. -/
def parseStep (info : OAuthInfo) (f : PField) : OAuthInfo :=
  match f.val with
  | .ld p =>
    if f.num = 1 then { info with accessToken := some p }
    else if f.num = 3 then { info with refreshToken := some p }
    else info
  | _ => info

theorem parseStep_of_wire_ne {num : Nat} {val : FieldVal} (info : OAuthInfo)
    (h : val.wire ≠ 2) : parseStep info ⟨num, val⟩ = info := by
  cases val with
  | ld p => exact absurd rfl h
  | vint n => rfl
  | i64 bs => rfl
  | i32 bs => rfl

theorem parseOAuthLoop_encode :
    ∀ (fields : List PField) (pre : List Nat) (info : OAuthInfo),
      (∀ f ∈ fields, f.wfb = true) →
      parseOAuthLoop (pre ++ encodeMessage fields) pre.length info =
        fields.foldl parseStep info := by
  intro fields
  induction fields with
  | nil =>
    intro pre info _
    rw [parseOAuthLoop]
    simp [encodeMessage]
  | cons f fs ih =>
    intro pre info hwf
    obtain ⟨num, val⟩ := f
    have hdata : pre ++ encodeMessage (⟨num, val⟩ :: fs)
        = pre ++ (encodeVarint (num * 8 + val.wire) ++ (val.enc ++ encodeMessage fs)) := by
      simp [encodeMessage, encodeField, List.append_assoc]
    have hlt : pre.length < (pre ++ encodeMessage (⟨num, val⟩ :: fs)).length := by
      have hne : encodeMessage (⟨num, val⟩ :: fs) ≠ [] := by
        simp only [encodeMessage, List.map_cons, List.join]
        intro h
        exact encodeField_ne_nil _ (List.append_eq_nil.mp h).1
      simp only [List.length_append]
      have := List.length_pos.mpr hne
      omega
    have hv := readVarint_encode pre (num * 8 + val.wire) (val.enc ++ encodeMessage fs)
    rw [← hdata] at hv
    rw [parseOAuthLoop, dif_pos hlt, hv]
    split
    · rename_i e hs2
      cases hs2
    · rename_i tag newOffset hs2
      cases hs2
      rw [tag_mod' num val.wire (wire_lt_8 val)]
      by_cases hw2 : val.wire = 2
      · rw [if_pos hw2]
        cases val with
        | vint n => simp [FieldVal.wire] at hw2
        | i64 bs => simp [FieldVal.wire] at hw2
        | i32 bs => simp [FieldVal.wire] at hw2
        | ld p =>
          have hdata3 : pre ++ encodeMessage (⟨num, FieldVal.ld p⟩ :: fs)
              = (pre ++ encodeVarint (num * 8 + (FieldVal.ld p).wire))
                  ++ (encodeVarint p.length ++ (p ++ encodeMessage fs)) := by
            simp [encodeMessage, encodeField, FieldVal.enc, List.append_assoc]
          have hv2 := readVarint_encode
            (pre ++ encodeVarint (num * 8 + (FieldVal.ld p).wire)) p.length
            (p ++ encodeMessage fs)
          rw [← hdata3, List.length_append] at hv2
          split
          · rename_i e hs3
            rw [hv2] at hs3
            cases hs3
          · rename_i length contentOffset hs3
            rw [hv2] at hs3
            cases hs3
            have hco : pre.length + (encodeVarint (num * 8 + (FieldVal.ld p).wire)).length
                  + (encodeVarint p.length).length
                = ((pre ++ encodeVarint (num * 8 + (FieldVal.ld p).wire))
                    ++ encodeVarint p.length).length := by
              simp only [List.length_append]
            have hdata4 : pre ++ encodeMessage (⟨num, FieldVal.ld p⟩ :: fs)
                = ((pre ++ encodeVarint (num * 8 + (FieldVal.ld p).wire))
                    ++ encodeVarint p.length) ++ (p ++ encodeMessage fs) := by
              simp [encodeMessage, encodeField, FieldVal.enc, List.append_assoc]
            rw [tag_div' num (FieldVal.ld p).wire (wire_lt_8 _)]
            rw [hco, hdata4, List.drop_left, List.take_left]
            have hnext : ((pre ++ encodeVarint (num * 8 + (FieldVal.ld p).wire))
                  ++ encodeVarint p.length).length + p.length
                = (pre ++ encodeField ⟨num, FieldVal.ld p⟩).length := by
              simp [encodeField, FieldVal.enc, List.length_append]
              omega
            have hmsg : pre ++ encodeMessage (⟨num, FieldVal.ld p⟩ :: fs)
                = (pre ++ encodeField ⟨num, FieldVal.ld p⟩) ++ encodeMessage fs := by
              simp [encodeMessage, List.append_assoc]
            rw [← hdata4, hnext, hmsg,
              ih (pre ++ encodeField ⟨num, FieldVal.ld p⟩) _
                (fun g hg => hwf g (by simp [hg]))]
            simp only [List.foldl_cons, parseStep]
      · rw [if_neg hw2]
        have hskip := skipField_encodeVal ⟨num, val⟩ (hwf _ (by simp))
          (pre ++ encodeVarint (num * 8 + val.wire)) (encodeMessage fs)
        rw [List.append_assoc, ← hdata, List.length_append] at hskip
        split
        · rename_i e hs3
          rw [hskip] at hs3
          cases hs3
        · rename_i next hs3
          rw [hskip] at hs3
          cases hs3
          have heq : pre.length + (encodeVarint (num * 8 + val.wire)).length
                + val.enc.length
              = (pre ++ encodeField ⟨num, val⟩).length := by
            simp [encodeField, List.length_append]
            omega
          have hmsg : pre ++ encodeMessage (⟨num, val⟩ :: fs)
              = (pre ++ encodeField ⟨num, val⟩) ++ encodeMessage fs := by
            simp [encodeMessage, List.append_assoc]
          rw [heq, hmsg, ih (pre ++ encodeField ⟨num, val⟩) info
            (fun g hg => hwf g (by simp [hg]))]
          rw [List.foldl_cons, parseStep_of_wire_ne info hw2]

theorem parseOAuthTokenInfo_encode (fields : List PField)
    (hwf : ∀ f ∈ fields, f.wfb = true) :
    parseOAuthTokenInfo (encodeMessage fields) = fields.foldl parseStep {} := by
  have h := parseOAuthLoop_encode fields [] {} hwf
  simpa [parseOAuthTokenInfo] using h

/-! ## Base64 decoding (`Buffer.from(-, 'base64')`)

Node's forgiving base64 decoder: both the standard and the url-safe alphabet
are accepted, any other character (including padding `=`) is skipped, and a
trailing group of 2 or 3 sextets yields 1 or 2 bytes. -/

/-- Sextet value of one base64 character, `none` for non-alphabet input. -/
def b64val (c : Char) : Option Nat :=
  if 'A' ≤ c ∧ c ≤ 'Z' then some (c.toNat - 65)
  else if 'a' ≤ c ∧ c ≤ 'z' then some (c.toNat - 97 + 26)
  else if '0' ≤ c ∧ c ≤ '9' then some (c.toNat - 48 + 52)
  else if c = '+' ∨ c = '-' then some 62
  else if c = '/' ∨ c = '_' then some 63
  else none

/-- Byte assembly from the sextet stream. -/
def b64bytes : List Nat → List Nat
  | b0 :: b1 :: b2 :: b3 :: rest =>
    (b0 * 4 + b1 / 16) :: (b1 % 16 * 16 + b2 / 4) :: (b2 % 4 * 64 + b3) :: b64bytes rest
  | [b0, b1] => [b0 * 4 + b1 / 16]
  | [b0, b1, b2] => [b0 * 4 + b1 / 16, b1 % 16 * 16 + b2 / 4]
  | _ => []

/-- `Buffer.from(s, 'base64')` as a byte list. -/
def b64decode (s : String) : List Nat :=
  b64bytes (s.toList.filterMap b64val)

/-! ## Extraction strategy 2: `extractTokensWithProtobuf` (lines 312–343)

The input is the `jetskiStateSync.agentManagerInitState` row value delivered
by `readStateValue` (`none` when the row/file is missing).  The source wraps
the whole body in `try/catch` and returns `null` from the `catch`, so the
body is modelled separately with errors propagated, and the exported function
applies the catch. -/

/-- JavaScript `\s` (the ASCII part, which is all the source data contains). -/
def isJsWs (c : Char) : Bool :=
  c = ' ' || c = '\t' || c = '\n' || c = '\r' || c = '\x0b' || c = '\x0c'

/-- JavaScript `trim()` on the character content (the ASCII whitespace set,
which is all the source data contains). -/
def jsTrim (s : String) : String :=
  String.mk (((s.toList.dropWhile isJsWs).reverse.dropWhile isJsWs).reverse)

/-- `try`-block body of `extractTokensWithProtobuf`: decoder errors escape. -/
def protoBody (stateValue : Option String) : Except String (Option OAuthInfo) :=
  match stateValue with
  | none => .ok none
  | some sv =>
    match findField (b64decode (jsTrim sv)) 6 with
    | .error e => .error e
    | .ok none => .ok none
    | .ok (some oauthField) => .ok (some (parseOAuthTokenInfo oauthField))

/-- `extractTokensWithProtobuf`: the `catch` turns any thrown decoder error
into a `null` result. -/
def extractTokensWithProtobuf (stateValue : Option String) : Option OAuthInfo :=
  match protoBody stateValue with
  | .ok r => r
  | .error _ => none

/-! ## Extraction strategy 1: `getAuthStatus` (lines 71–110)

Inputs: whether `state.vscdb` exists, the `antigravityAuthStatus` row value,
and the behaviour of the host `JSON.parse` (an arbitrary function that may
throw) on that value. -/

/-- The fields the source reads off the parsed JSON value. -/
structure AuthJson where
  email : Option String
  apiKey : Option String
deriving DecidableEq

/-- `try`-block body of `getAuthStatus`: a throwing `JSON.parse` escapes. -/
def authBody (fileExists : Bool) (row : Option String)
    (jsonParse : String → Except String AuthJson) :
    Except String (Option AuthJson) :=
  if fileExists = false then .ok none
  else
    match row with
    | some s =>
      match jsonParse s with
      | .ok j => .ok (some j)
      | .error e => .error e
    | none => .ok none

/-- `getAuthStatus`: the `catch` turns a `JSON.parse` exception into `null`. -/
def getAuthStatus (fileExists : Bool) (row : Option String)
    (jsonParse : String → Except String AuthJson) : Option AuthJson :=
  match authBody fileExists row jsonParse with
  | .ok r => r
  | .error _ => none

/-! ## Extraction strategy 3: `extractTokensFromDb` (lines 348–428)

The file content is modelled as a character list; each regex `exec` loop is a
scan that, like the JavaScript engine, takes the leftmost match at or after
`lastIndex`, with greedy bounded repetition, and resumes after the match. -/

/-- Character class `[a-zA-Z0-9_-]` of the token patterns. -/
def isTokChar (c : Char) : Bool :=
  c.isAlphanum || c = '_' || c = '-'

/-- Character class `[a-zA-Z0-9+/=_-]` of the base64-candidate pattern. -/
def isB64Char (c : Char) : Bool :=
  c.isAlphanum || c = '+' || c = '/' || c = '=' || c = '_' || c = '-'

/-- Generic `regex.exec` loop: `m` returns the match length and payload when
the pattern matches exactly at the head of the given suffix.  After a match of
length `len` the scan resumes `len` characters later (one character later for
an empty match, as `exec` does). -/
def scanGo (m : List Char → Option (Nat × String)) :
    List Char → Nat → Nat → List (Nat × String)
  | [], _, _ => []
  | c :: rest, i, skip =>
    if skip > 0 then scanGo m rest (i + 1) (skip - 1)
    else
      match m (c :: rest) with
      | some (len, r) => (i, r) :: scanGo m rest (i + 1) (len - 1)
      | none => scanGo m rest (i + 1) 0

/-- All matches of pattern `m` in `content` with their offsets. -/
def scan (m : List Char → Option (Nat × String)) (content : List Char) :
    List (Nat × String) :=
  scanGo m content 0 0

/-- `/ya29\.[a-zA-Z0-9_-]{100,}/` at the head of a suffix. -/
def directMatcher (s : List Char) : Option (Nat × String) :=
  if "ya29.".toList.isPrefixOf s then
    let run := (s.drop 5).takeWhile isTokChar
    if 100 ≤ run.length then some (5 + run.length, String.mk ("ya29.".toList ++ run))
    else none
  else none

/-- `/eWEyOS[a-zA-Z0-9+/=_-]{50,300}/` at the head of a suffix. -/
def base64Matcher (s : List Char) : Option (Nat × String) :=
  if "eWEyOS".toList.isPrefixOf s then
    let run := (s.drop 6).takeWhile isB64Char
    if 50 ≤ run.length then
      some (6 + min run.length 300, String.mk ("eWEyOS".toList ++ run.take 300))
    else none
  else none

/-- `decoded.match(/ya29\.[a-zA-Z0-9_-]+/)`: first match in the string. -/
def findYa29 : List Char → Option String
  | [] => none
  | s@(_ :: rest) =>
    if "ya29.".toList.isPrefixOf s then
      let run := (s.drop 5).takeWhile isTokChar
      if 1 ≤ run.length then some (String.mk ("ya29.".toList ++ run))
      else findYa29 rest
    else findYa29 rest

/-- Post-processing of one base64 candidate (lines 367–375): decode, search
the decoded text for a `ya29.` token, keep it only when longer than 100. -/
def postB64 (cand : String) : Option String :=
  let decoded := (b64decode cand).map Char.ofNat
  match findYa29 decoded with
  | some tok => if 100 < tok.length then some tok else none
  | none => none

/-- `/1\/[a-zA-Z0-9_-]{40,150}/` at the head of a suffix. -/
def refresh1Matcher (s : List Char) : Option (Nat × String) :=
  if "1/".toList.isPrefixOf s then
    let run := (s.drop 2).takeWhile isTokChar
    if 40 ≤ run.length then
      some (2 + min run.length 150, String.mk ("1/".toList ++ run.take 150))
    else none
  else none

/-- `/1\/\/[a-zA-Z0-9_-]{30,150}/` at the head of a suffix. -/
def refresh2Matcher (s : List Char) : Option (Nat × String) :=
  if "1//".toList.isPrefixOf s then
    let run := (s.drop 3).takeWhile isTokChar
    if 30 ≤ run.length then
      some (3 + min run.length 150, String.mk ("1//".toList ++ run.take 150))
    else none
  else none

/-- `/"refresh_token"\s*:\s*"([^"]{30,200})"/` at the head of a suffix; the
payload is capture group 1. -/
def refresh3Matcher (s : List Char) : Option (Nat × String) :=
  if "\"refresh_token\"".toList.isPrefixOf s then
    let s1 := s.drop 15
    let a := s1.takeWhile isJsWs
    match s1.drop a.length with
    | ':' :: s3 =>
      let b := s3.takeWhile isJsWs
      match s3.drop b.length with
      | '"' :: s5 =>
        let cRun := s5.takeWhile (fun c => c ≠ '"')
        if 30 ≤ cRun.length ∧ cRun.length ≤ 200 ∧ cRun.length < s5.length then
          some (15 + a.length + 1 + b.length + 1 + cRun.length + 1, String.mk cRun)
        else none
      | _ => none
    | _ => none
  else none

/-- The `allTokens` list of `extractTokensFromDb` (lines 361–382): base64-pass
hits (decoded and filtered) followed by direct-pattern hits, each with its
match offset. -/
def allTokens (content : List Char) : List (Nat × String) :=
  ((scan base64Matcher content).filterMap fun p =>
    (postB64 p.2).map fun t => (p.1, t))
    ++ scan directMatcher content

/-- The `refreshTokens` list of `extractTokensFromDb` (lines 386–404). -/
def refreshTokens (content : List Char) : List (Nat × String) :=
  scan refresh1Matcher content ++ scan refresh2Matcher content
    ++ scan refresh3Matcher content

/-- Comparator `(a, b) => a.index - b.index` of the in-place sorts. -/
def leIdx (a b : Nat × String) : Prop := a.1 ≤ b.1

instance : DecidableRel leIdx := fun a b => Nat.decLe a.1 b.1

instance : IsTotal (Nat × String) leIdx := ⟨fun a b => Nat.le_total a.1 b.1⟩

instance : IsTrans (Nat × String) leIdx := ⟨fun _ _ _ h1 h2 => Nat.le_trans h1 h2⟩

/-- The in-place `sort((a, b) => a.index - b.index)`: JavaScript's sort is
stable, so it agrees with stable insertion sort on this comparator. -/
def sortIdx (l : List (Nat × String)) : List (Nat × String) :=
  l.insertionSort leIdx

/-- Result record of `extractTokensFromDb`. -/
structure ExtractResult where
  accessToken : String
  refreshToken : Option String
deriving DecidableEq

/-- `extractTokensFromDb`: `none` when `state.vscdb` is missing, when reading
it throws (the `catch`), or when no token pattern matches; otherwise the
last-offset access token and, when present, the last-offset refresh token. -/
def extractTokensFromDb (file : Option (Except String (List Char))) :
    Option ExtractResult :=
  match file with
  | none => none
  | some (.error _) => none
  | some (.ok content) =>
    match (sortIdx (allTokens content)).getLast? with
    | some last =>
      some { accessToken := last.2,
             refreshToken := ((sortIdx (refreshTokens content)).getLast?).map Prod.snd }
    | none => none

/-! ## Credential lifecycle store (lines 40–45, 523–747)

`SecretStorage` is a key→string map.  A stored value is either the JSON
serialization of a `StoredCredential` (every record the service itself writes)
or a legacy raw token string that is not valid JSON; `JSON.parse` succeeds
exactly on the former, and the JSON round trip on records the service wrote is
the identity. -/

/-- `interface StoredCredential` (lines 39–45). -/
structure StoredCredential where
  accessToken : String
  refreshToken : Option String
  expiresAt : Int
  email : String
  createdAt : Int
deriving DecidableEq

/-- JSON string escaping used by `JSON.stringify` for string values. -/
def jsonEscapeChar (c : Char) : List Char :=
  if c = '"' then ['\\', '"']
  else if c = '\\' then ['\\', '\\']
  else if c = '\n' then ['\\', 'n']
  else if c = '\r' then ['\\', 'r']
  else if c = '\t' then ['\\', 't']
  else [c]

def jsonStr (s : String) : String :=
  String.mk ('"' :: (s.toList.flatMap jsonEscapeChar) ++ ['"'])

/-- `JSON.stringify` of a credential record, with the key order in which the
source builds the object literal; an absent `refreshToken` is omitted. -/
def stringifyCred (c : StoredCredential) : String :=
  "\x7b\"accessToken\":" ++ jsonStr c.accessToken
    ++ (match c.refreshToken with
        | some r => ",\"refreshToken\":" ++ jsonStr r
        | none => "")
    ++ ",\"expiresAt\":" ++ toString c.expiresAt
    ++ ",\"email\":" ++ jsonStr c.email
    ++ ",\"createdAt\":" ++ toString c.createdAt ++ "\x7d"

/-- A value held in `SecretStorage` under a token key. -/
inductive StoreVal where
  | raw (s : String)
  | cred (c : StoredCredential)
deriving DecidableEq

/-- The character content of the stored string. -/
def StoreVal.str : StoreVal → String
  | .raw s => s
  | .cred c => stringifyCred c

/-- `JSON.parse` of a stored value as a credential: succeeds exactly on
serialized records, throws on legacy raw strings. -/
def StoreVal.parseCred : StoreVal → Option StoredCredential
  | .raw _ => none
  | .cred c => some c

/-- The secret store. -/
def Store := String → Option StoreVal

def storeSet (st : Store) (k : String) (v : StoreVal) : Store :=
  fun k' => if k' = k then some v else st k'

/-- `TOKEN_PREFIX + email` (line 11). -/
def tokenKey (email : String) : String := "rerevolve.token." ++ email

/-- External context of one `TokenService` operation: the clock, the network
refresh exchange, the `state.vscdb` contents, and the host auth-status and
oauth-token reads. -/
structure TokenEnv where
  /-- `Date.now()`. -/
  now : Int
  /-- The token-endpoint exchange: refresh token ↦ `(access_token, expires_in)`,
  `none` for a network error or non-2xx response. -/
  fetchRefresh : String → Option (String × Int)
  /-- The `state.vscdb` file for `extractTokensFromDb`. -/
  dbFile : Option (Except String (List Char))
  /-- Result of `getAuthStatus()` (strategy 1, already caught). -/
  authStatus : Option AuthJson
  /-- Result of `getRefreshToken()` (already caught, may be `null`). -/
  oauthRefresh : Option String

/-- `refreshAccessToken` (lines 642–673): no (or empty) refresh token means no
exchange; otherwise the endpoint result with `expiresAt = now + expires_in * 1000`. -/
def refreshAccessToken (env : TokenEnv) (c : StoredCredential) :
    Option (String × Int) :=
  match c.refreshToken with
  | none => none
  | some rt =>
    if rt = "" then none
    else (env.fetchRefresh rt).map fun p => (p.1, env.now + p.2 * 1000)

/-- `tryAutoRecovery` (lines 723–747): extract from `state.vscdb` and store a
fresh record with a 55-minute TTL under the caller's email. -/
def tryAutoRecovery (env : TokenEnv) (st : Store) (email : String) :
    Bool × Store :=
  match extractTokensFromDb env.dbFile with
  | none => (false, st)
  | some r =>
    (true, storeSet st (tokenKey email)
      (.cred { accessToken := r.accessToken, refreshToken := r.refreshToken,
               expiresAt := env.now + 3300000, email := email,
               createdAt := env.now }))

/-- Outcome of `getToken`: the returned value, the store afterwards, and
whether `refreshAccessToken` / `tryAutoRecovery` were invoked. -/
structure GetResult where
  result : Option String
  store : Store
  refreshCalled : Bool
  recoveryCalled : Bool

/-- `getToken` continuation once a stored value is at hand (lines 598–636).
The legacy branch is the `catch` of the failing `JSON.parse`: a raw string
longer than 10 characters is returned as-is. -/
def getTokenStored (env : TokenEnv) (st : Store) (email : String)
    (v : StoreVal) (recovered : Bool) : GetResult :=
  match v with
  | .raw s =>
    { result := if 10 < s.length then some s else none, store := st,
      refreshCalled := false, recoveryCalled := recovered }
  | .cred c =>
    if c.expiresAt - 300000 < env.now then
      match refreshAccessToken env c with
      | some (tok, exp) =>
        { result := some tok,
          store := storeSet st (tokenKey email)
            (.cred { c with accessToken := tok, expiresAt := exp }),
          refreshCalled := true, recoveryCalled := recovered }
      | none =>
        match tryAutoRecovery env st email with
        | (true, st1) =>
          match st1 (tokenKey email) with
          | some v2 =>
            -- `if (newStored)`: the empty string is falsy
            if (StoreVal.str v2).length = 0 then
              { result := some c.accessToken, store := st1,
                refreshCalled := true, recoveryCalled := true }
            else
              match v2 with
              | .cred c2 =>
                { result := some c2.accessToken, store := st1,
                  refreshCalled := true, recoveryCalled := true }
              | .raw _ =>
                -- `JSON.parse(newStored)` throws, landing in the outer
                -- `catch`, which falls back to the original `stored` string
                { result := if 10 < (StoreVal.str v).length
                    then some (StoreVal.str v) else none,
                  store := st1, refreshCalled := true, recoveryCalled := true }
          | none =>
            { result := some c.accessToken, store := st1,
              refreshCalled := true, recoveryCalled := true }
        | (false, st1) =>
          { result := some c.accessToken, store := st1,
            refreshCalled := true, recoveryCalled := true }
    else
      { result := some c.accessToken, store := st,
        refreshCalled := false, recoveryCalled := recovered }

/-- The `!stored` path of `getToken` (lines 586–596): recovery, re-read, and
`null` when still absent (the empty string is falsy in both checks). -/
def getTokenRecover (env : TokenEnv) (st : Store) (email : String) : GetResult :=
  match tryAutoRecovery env st email with
  | (true, st1) =>
    match st1 (tokenKey email) with
    | some v =>
      if (StoreVal.str v).length = 0 then
        { result := none, store := st1, refreshCalled := false,
          recoveryCalled := true }
      else getTokenStored env st1 email v true
    | none =>
      { result := none, store := st1, refreshCalled := false,
        recoveryCalled := true }
  | (false, st1) =>
    { result := none, store := st1, refreshCalled := false,
      recoveryCalled := true }

/-- `getToken(email)` (lines 582–637). -/
def getToken (env : TokenEnv) (st : Store) (email : String) : GetResult :=
  match st (tokenKey email) with
  | some v =>
    if (StoreVal.str v).length = 0 then getTokenRecover env st email
    else getTokenStored env st email v false
  | none => getTokenRecover env st email

/-- `hasToken(email)` (lines 679–704). -/
def hasToken (env : TokenEnv) (st : Store) (email : String) : Bool :=
  match st (tokenKey email) with
  | none => false
  | some v =>
    if (StoreVal.str v).length ≤ 10 then false
    else
      match v with
      | .raw _ => false
      | .cred c =>
        if env.now ≤ c.expiresAt - 300000 then true
        else if c.refreshToken.getD "" ≠ "" then true
        else false

/-- JavaScript `toLowerCase()` on the character content (all data here is
ASCII, where `Char.toLower` agrees with it). -/
def jsToLower (s : String) : String := String.mk (s.toList.map Char.toLower)

/-- Outcome of `captureCurrentToken`. -/
structure CaptureResult where
  success : Bool
  store : Store
  warned : Bool

/-- `captureCurrentToken(email)` (lines 523–577): the record is stored under
the lowercased email of the currently active identity, and a mismatch with the
caller's argument only produces a warning. -/
def captureCurrentToken (env : TokenEnv) (st : Store) (email : String) :
    CaptureResult :=
  match env.authStatus with
  | none => { success := false, store := st, warned := false }
  | some auth =>
    match auth.email.map jsToLower, auth.apiKey with
    | some currentEmail, some accessToken =>
      if currentEmail = "" ∨ accessToken = "" then
        { success := false, store := st, warned := false }
      else
        let refreshToken : Option String :=
          match env.oauthRefresh with
          | some "" => none
          | x => x
        let warned := jsToLower email ≠ currentEmail
        { success := true,
          store := storeSet st (tokenKey currentEmail)
            (.cred { accessToken := accessToken, refreshToken := refreshToken,
                     expiresAt := env.now + 3300000, email := currentEmail,
                     createdAt := env.now }),
          warned := warned }
    | _, _ => { success := false, store := st, warned := false }

/-! ## Account switcher (`account-switcher.ts`, lines 73–197)

The snapshot map is the parsed `rerevolve_snapshots` secret; the `ItemTable`
of `state.vscdb` is a key→string map.

`updateAuthStatus` (lines 180–197) escapes only single quotes and
interpolates the value into a double-quoted segment of a shell command line,
`sqlite3 "<path>" "UPDATE ItemTable SET value='<escaped>' WHERE
key='antigravityAuthStatus'"`, run through `child_process.exec`.  On the
code's target platform (the constructor hard-codes `%APPDATA%`, i.e.
Windows) the spawned child's command-line parsing treats every unescaped
double quote as a quoting toggle and removes it, so the statement `sqlite3`
receives is that segment with its `"` characters consumed; the SQL wrapper
text contains none, hence the delivered literal body is
`stripDq escapedValue`.  Backslash-quote sequences and whitespace falling
into the unquoted stretches mangle the command even further — never back
towards the verbatim blob — so this model is the source's best case.
`sqlite3` stores the SQL-unescaped reading of the delivered literal body;
the row changes only if it exists. -/

/-- `interface AccountSnapshot` (lines 11–15). -/
structure AccountSnapshot where
  email : String
  authStatus : String
  savedAt : Int
deriving DecidableEq

/-- `authStatus.replace(/'/g, "''")` (line 184). -/
def escapeQuotesL : List Char → List Char
  | [] => []
  | c :: rest =>
    if c = '\'' then '\'' :: '\'' :: escapeQuotesL rest
    else c :: escapeQuotesL rest

/-- SQL reading of a single-quoted literal body: `''` denotes one quote. -/
def sqlUnescapeL : List Char → List Char
  | [] => []
  | [c] => [c]
  | c :: d :: rest =>
    if c = '\'' ∧ d = '\'' then '\'' :: sqlUnescapeL rest
    else c :: sqlUnescapeL (d :: rest)

theorem sqlUnescapeL_cons_ne {c : Char} (h : ¬ c = '\'') (x : List Char) :
    sqlUnescapeL (c :: x) = c :: sqlUnescapeL x := by
  cases x with
  | nil => rfl
  | cons d r =>
    rw [sqlUnescapeL]
    rw [if_neg fun hh => h hh.1]

theorem sqlUnescapeL_escapeQuotesL : ∀ l, sqlUnescapeL (escapeQuotesL l) = l := by
  intro l
  induction l with
  | nil => rfl
  | cons c rest ih =>
    by_cases hc : c = '\''
    · subst hc
      rw [escapeQuotesL, if_pos rfl, sqlUnescapeL, if_pos ⟨rfl, rfl⟩, ih]
    · rw [escapeQuotesL, if_neg hc, sqlUnescapeL_cons_ne hc, ih]

/-- Removal of the double quotes that the command-line parsing of the exec'd
`sqlite3` consumes (each unescaped `"` toggles quoting and is dropped). -/
def stripDq (l : List Char) : List Char :=
  l.filter fun c => c ≠ '"'

theorem stripDq_escapeQuotesL (l : List Char) :
    stripDq (escapeQuotesL l) = escapeQuotesL (stripDq l) := by
  induction l with
  | nil => rfl
  | cons c rest ih =>
    by_cases hc : c = '\''
    · subst hc
      rw [escapeQuotesL, if_pos rfl]
      have h1 : stripDq ('\'' :: '\'' :: escapeQuotesL rest)
          = '\'' :: '\'' :: stripDq (escapeQuotesL rest) := by
        simp [stripDq]
      have h2 : stripDq ('\'' :: rest) = '\'' :: stripDq rest := by
        simp [stripDq]
      rw [h1, ih, h2, escapeQuotesL, if_pos rfl]
    · rw [escapeQuotesL, if_neg hc]
      by_cases hq : c = '"'
      · subst hq
        have h1 : stripDq ('"' :: escapeQuotesL rest)
            = stripDq (escapeQuotesL rest) := by
          simp [stripDq]
        have h2 : stripDq ('"' :: rest) = stripDq rest := by
          simp [stripDq]
        rw [h1, h2, ih]
      · have h1 : stripDq (c :: escapeQuotesL rest)
            = c :: stripDq (escapeQuotesL rest) := by
          simp [stripDq, hq]
        have h2 : stripDq (c :: rest) = c :: stripDq rest := by
          simp [stripDq, hq]
        rw [h1, h2, ih, escapeQuotesL, if_neg hc]

/-- What the write pipeline delivers: single-quote escaping survives the
shell layer (`'` is not consumed), double quotes do not, and SQL unescaping
undoes the doubling — the stored value is the input minus its double
quotes. -/
theorem sqlUnescapeL_stripDq_escapeQuotesL (l : List Char) :
    sqlUnescapeL (stripDq (escapeQuotesL l)) = stripDq l := by
  rw [stripDq_escapeQuotesL, sqlUnescapeL_escapeQuotesL]

/-- `ItemTable` of `state.vscdb`. -/
def IdStore := String → Option String

/-- The identity key the switcher overwrites. -/
def idKey : String := "antigravityAuthStatus"

/-- External context of a switch: the loaded snapshot map and whether the
`sqlite3` process fails. -/
structure SwitchEnv where
  snapshots : String → Option AccountSnapshot
  execFails : Bool

/-- Outcome of a switch: success flag, the `ItemTable` afterwards, and the
number of `UPDATE` statements executed. -/
structure SwitchResult where
  ok : Bool
  db : IdStore
  writes : Nat

/-- `updateAuthStatus(authStatus)` (lines 180–197): single-quote escaping
(line 184), then the exec'd command whose argument parsing consumes the
unescaped double quotes (see the section header), then one `UPDATE` statement
storing the SQL-unescaped reading of the delivered literal body. -/
def updateAuthStatus (env : SwitchEnv) (db : IdStore) (authStatus : String) :
    SwitchResult :=
  if env.execFails then { ok := false, db := db, writes := 0 }
  else
    let escapedValue := escapeQuotesL authStatus.toList
    let written := String.mk (sqlUnescapeL (stripDq escapedValue))
    { ok := true,
      db := fun k =>
        if k = idKey then (db idKey).map fun _ => written else db k,
      writes := 1 }

/-- `switchToAccount(email)` (lines 73–102). -/
def switchToAccount (env : SwitchEnv) (db : IdStore) (email : String) :
    SwitchResult :=
  match env.snapshots email with
  | none => { ok := false, db := db, writes := 0 }
  | some snapshot => updateAuthStatus env db snapshot.authStatus

/-- What a successful write against an existing row stores: the blob with its
double quotes removed — verbatim exactly for blobs containing none. -/
theorem updateAuthStatus_writes (env : SwitchEnv) (db : IdStore)
    (authStatus old : String)
    (hexec : env.execFails = false) (hold : db idKey = some old) :
    (updateAuthStatus env db authStatus).db idKey
      = some (String.mk (stripDq authStatus.toList)) := by
  simp [updateAuthStatus, hexec, hold, sqlUnescapeL_stripDq_escapeQuotesL]

/-! ## Helper lemmas for the claim theorems -/

theorem storeSet_same (st : Store) (k : String) (v : StoreVal) :
    storeSet st k v k = some v := by
  simp [storeSet]

theorem storeSet_other (st : Store) (k k' : String) (v : StoreVal)
    (h : k' ≠ k) : storeSet st k v k' = st k' := by
  simp [storeSet, h]

theorem mk_toList (s : String) : String.mk s.toList = s := by
  cases s
  rfl

theorem stringifyCred_ne_empty (c : StoredCredential) :
    ¬ (stringifyCred c).length = 0 := by
  intro h
  unfold stringifyCred at h
  rw [String.length_append] at h
  have h1 : ("\x7d" : String).length = 1 := rfl
  omega

/-- In the expired/expiring branch, `refreshAccessToken` is always invoked. -/
theorem getTokenStored_expired_refreshCalled (env : TokenEnv) (st : Store)
    (email : String) (c : StoredCredential) (rec : Bool)
    (hexp : c.expiresAt - 300000 < env.now) :
    (getTokenStored env st email (.cred c) rec).refreshCalled = true := by
  simp only [getTokenStored]
  rw [if_pos hexp]
  cases hr : refreshAccessToken env c with
  | some p => obtain ⟨tok, exp⟩ := p; rfl
  | none =>
    cases hx : extractTokensFromDb env.dbFile with
    | none => simp [tryAutoRecovery, hx]
    | some r =>
      simp [tryAutoRecovery, hx, storeSet_same, StoreVal.str,
        stringifyCred_ne_empty]

/-- In the expired/expiring branch, a failed refresh always leads to
`tryAutoRecovery`. -/
theorem getTokenStored_expired_recoveryCalled (env : TokenEnv) (st : Store)
    (email : String) (c : StoredCredential) (rec : Bool)
    (hexp : c.expiresAt - 300000 < env.now)
    (hr : refreshAccessToken env c = none) :
    (getTokenStored env st email (.cred c) rec).recoveryCalled = true := by
  simp only [getTokenStored]
  rw [if_pos hexp, hr]
  cases hx : extractTokensFromDb env.dbFile with
  | none => simp [tryAutoRecovery, hx]
  | some r =>
    simp [tryAutoRecovery, hx, storeSet_same, StoreVal.str,
      stringifyCred_ne_empty]

/-! ## C1 -/

/-- C1: with a stored credential record and `now < expiresAt - 5 min`,
`getToken` returns the cached access token, leaves the store unchanged and
invokes neither the refresh exchange nor recovery; a second call within the
skew window returns the identical token. -/
theorem getToken_fresh_cached (env : TokenEnv) (st : Store) (email : String)
    (c : StoredCredential) (t1 t2 : Int)
    (h : st (tokenKey email) = some (.cred c))
    (h1 : t1 < c.expiresAt - 300000) (h2 : t2 < c.expiresAt - 300000) :
    (getToken { env with now := t1 } st email).result = some c.accessToken
    ∧ (getToken { env with now := t1 } st email).refreshCalled = false
    ∧ (getToken { env with now := t1 } st email).recoveryCalled = false
    ∧ (getToken { env with now := t1 } st email).store = st
    ∧ (getToken { env with now := t2 }
        (getToken { env with now := t1 } st email).store email).result
      = some c.accessToken := by
  have key : ∀ t : Int, t < c.expiresAt - 300000 →
      getToken { env with now := t } st email
        = { result := some c.accessToken, store := st,
            refreshCalled := false, recoveryCalled := false } := by
    intro t ht
    simp only [getToken, h]
    rw [if_neg (show ¬ (StoreVal.cred c).str.length = 0 from stringifyCred_ne_empty c)]
    simp only [getTokenStored]
    rw [if_neg (by omega)]
  rw [key t1 h1]
  refine ⟨rfl, rfl, rfl, rfl, ?_⟩
  rw [key t2 h2]

/-- C1 witness. -/
theorem getToken_fresh_cached_witness :
    (getToken { now := 0, fetchRefresh := fun _ => none, dbFile := none,
                authStatus := none, oauthRefresh := none }
      (fun k => if k = "rerevolve.token.a@x.com"
        then some (.cred { accessToken := "tokA", refreshToken := none,
                           expiresAt := 1000000, email := "a@x.com",
                           createdAt := 0 })
        else none) "a@x.com").result = some "tokA"
    ∧ (getToken { now := 0, fetchRefresh := fun _ => none, dbFile := none,
                  authStatus := none, oauthRefresh := none }
        (fun k => if k = "rerevolve.token.a@x.com"
          then some (.cred { accessToken := "tokA", refreshToken := none,
                             expiresAt := 1000000, email := "a@x.com",
                             createdAt := 0 })
          else none) "a@x.com").refreshCalled = false
    ∧ (getToken { now := 0, fetchRefresh := fun _ => none, dbFile := none,
                  authStatus := none, oauthRefresh := none }
        (fun k => if k = "rerevolve.token.a@x.com"
          then some (.cred { accessToken := "tokA", refreshToken := none,
                             expiresAt := 1000000, email := "a@x.com",
                             createdAt := 0 })
          else none) "a@x.com").recoveryCalled = false
    ∧ (getToken { now := 0, fetchRefresh := fun _ => none, dbFile := none,
                  authStatus := none, oauthRefresh := none }
        (fun k => if k = "rerevolve.token.a@x.com"
          then some (.cred { accessToken := "tokA", refreshToken := none,
                             expiresAt := 1000000, email := "a@x.com",
                             createdAt := 0 })
          else none) "a@x.com").store
      = (fun k => if k = "rerevolve.token.a@x.com"
          then some (.cred { accessToken := "tokA", refreshToken := none,
                             expiresAt := 1000000, email := "a@x.com",
                             createdAt := 0 })
          else none)
    ∧ (getToken { now := 100, fetchRefresh := fun _ => none, dbFile := none,
                  authStatus := none, oauthRefresh := none }
        (getToken { now := 0, fetchRefresh := fun _ => none, dbFile := none,
                    authStatus := none, oauthRefresh := none }
          (fun k => if k = "rerevolve.token.a@x.com"
            then some (.cred { accessToken := "tokA", refreshToken := none,
                               expiresAt := 1000000, email := "a@x.com",
                               createdAt := 0 })
            else none) "a@x.com").store "a@x.com").result = some "tokA" :=
  getToken_fresh_cached
    { now := 0, fetchRefresh := fun _ => none, dbFile := none,
      authStatus := none, oauthRefresh := none } _ "a@x.com"
    { accessToken := "tokA", refreshToken := none, expiresAt := 1000000,
      email := "a@x.com", createdAt := 0 } 0 100 (by decide) (by decide)
    (by decide)

/-! ## C2 -/

/-- C2: with a stored record that is expired or within the skew window,
`getToken` attempts the refresh exchange; if the refresh fails it invokes
recovery; and if the `state.vscdb` extraction also fails it returns the
last-known stale access token rather than `null`. -/
theorem getToken_expired_refresh_recover (env : TokenEnv) (st : Store)
    (email : String) (c : StoredCredential)
    (h : st (tokenKey email) = some (.cred c))
    (hexp : c.expiresAt - 300000 < env.now) :
    (getToken env st email).refreshCalled = true
    ∧ (refreshAccessToken env c = none →
        (getToken env st email).recoveryCalled = true)
    ∧ (refreshAccessToken env c = none → extractTokensFromDb env.dbFile = none →
        (getToken env st email).result = some c.accessToken) := by
  have hget : getToken env st email = getTokenStored env st email (.cred c) false := by
    simp only [getToken, h]
    rw [if_neg (show ¬ (StoreVal.cred c).str.length = 0 from stringifyCred_ne_empty c)]
  refine ⟨?_, ?_, ?_⟩
  · rw [hget]
    exact getTokenStored_expired_refreshCalled env st email c false hexp
  · intro hr
    rw [hget]
    exact getTokenStored_expired_recoveryCalled env st email c false hexp hr
  · intro hr hdb
    rw [hget]
    simp only [getTokenStored]
    rw [if_pos hexp, hr]
    have hrec : tryAutoRecovery env st email = (false, st) := by
      simp [tryAutoRecovery, hdb]
    rw [hrec]

/-- C2 witness: an expired record with a refresh token, a failing exchange and
no extractable tokens. -/
theorem getToken_expired_refresh_recover_witness :
    (getToken { now := 1000000, fetchRefresh := fun _ => none, dbFile := none,
                authStatus := none, oauthRefresh := none }
      (fun k => if k = "rerevolve.token.a@x.com"
        then some (.cred { accessToken := "stale", refreshToken := some "1//rt",
                           expiresAt := 0, email := "a@x.com", createdAt := 0 })
        else none) "a@x.com").refreshCalled = true
    ∧ (refreshAccessToken
        { now := 1000000, fetchRefresh := fun _ => none, dbFile := none,
          authStatus := none, oauthRefresh := none }
        { accessToken := "stale", refreshToken := some "1//rt",
          expiresAt := 0, email := "a@x.com", createdAt := 0 } = none →
        (getToken { now := 1000000, fetchRefresh := fun _ => none, dbFile := none,
                    authStatus := none, oauthRefresh := none }
          (fun k => if k = "rerevolve.token.a@x.com"
            then some (.cred { accessToken := "stale", refreshToken := some "1//rt",
                               expiresAt := 0, email := "a@x.com", createdAt := 0 })
            else none) "a@x.com").recoveryCalled = true)
    ∧ (refreshAccessToken
        { now := 1000000, fetchRefresh := fun _ => none, dbFile := none,
          authStatus := none, oauthRefresh := none }
        { accessToken := "stale", refreshToken := some "1//rt",
          expiresAt := 0, email := "a@x.com", createdAt := 0 } = none →
        extractTokensFromDb none = none →
        (getToken { now := 1000000, fetchRefresh := fun _ => none, dbFile := none,
                    authStatus := none, oauthRefresh := none }
          (fun k => if k = "rerevolve.token.a@x.com"
            then some (.cred { accessToken := "stale", refreshToken := some "1//rt",
                               expiresAt := 0, email := "a@x.com", createdAt := 0 })
            else none) "a@x.com").result = some "stale") :=
  getToken_expired_refresh_recover
    { now := 1000000, fetchRefresh := fun _ => none, dbFile := none,
      authStatus := none, oauthRefresh := none } _ "a@x.com"
    { accessToken := "stale", refreshToken := some "1//rt", expiresAt := 0,
      email := "a@x.com", createdAt := 0 } (by decide) (by decide)

/-! ## C10 -/

/-- C10: for a stored legacy raw token (a non-JSON string longer than 10
characters), `getToken` returns the raw string while `hasToken` returns
`false`, so the two operations disagree on whether a usable token exists. -/
theorem getToken_hasToken_disagree_legacy (env : TokenEnv) (st : Store)
    (email : String) (s : String)
    (h : st (tokenKey email) = some (.raw s)) (hlen : 10 < s.length) :
    (getToken env st email).result = some s
    ∧ hasToken env st email = false := by
  constructor
  · simp only [getToken, h]
    rw [if_neg (show ¬ (StoreVal.str (.raw s)).length = 0 by
      simp only [StoreVal.str]; omega)]
    simp only [getTokenStored]
    rw [if_pos hlen]
  · simp only [hasToken, h, StoreVal.str]
    rw [if_neg (by omega)]

/-- C10 witness: the legacy value `"legacyRawToken"` (14 characters). -/
theorem getToken_hasToken_disagree_legacy_witness :
    (getToken { now := 0, fetchRefresh := fun _ => none, dbFile := none,
                authStatus := none, oauthRefresh := none }
      (fun k => if k = "rerevolve.token.a@x.com"
        then some (.raw "legacyRawToken") else none) "a@x.com").result
      = some "legacyRawToken"
    ∧ hasToken { now := 0, fetchRefresh := fun _ => none, dbFile := none,
                 authStatus := none, oauthRefresh := none }
        (fun k => if k = "rerevolve.token.a@x.com"
          then some (.raw "legacyRawToken") else none) "a@x.com" = false :=
  getToken_hasToken_disagree_legacy
    { now := 0, fetchRefresh := fun _ => none, dbFile := none,
      authStatus := none, oauthRefresh := none } _ "a@x.com" "legacyRawToken"
    (by decide) (by decide)

/-! ## C3 -/

/-- The snapshot map of the C3 failing input: one snapshot for `a@x.com`
whose blob is the JSON record the identity key actually holds — and, like
every JSON value, it contains double quotes. -/
def quoteEnv : SwitchEnv :=
  { snapshots := fun e =>
      if e = "a@x.com"
      then some { email := "a@x.com",
                  authStatus := "\x7b\"email\":\"a@x.com\"\x7d",
                  savedAt := 0 }
      else none,
    execFails := false }

/-- The `ItemTable` of the C3 failing input. -/
def quoteDb : IdStore := fun k => if k = idKey then some "oldBlob" else none

/-- C3 (code bug): the no-snapshot half holds — `switchToAccount` fails with
no write and leaves the identity key byte-for-byte unchanged — but the
claimed verbatim overwrite is false on the code: the blob is interpolated
into a double-quoted segment of an exec'd shell command with only single
quotes escaped, so the spawned `sqlite3`'s command-line parsing consumes the
blob's double quotes.  At the failing input, the snapshot blob
`\x7b"email":"a@x.com"\x7d`, the switch reports success and performs its
single write, yet the identity key receives the blob with its quotes
stripped, not the verbatim blob. -/
theorem switchToAccount_quote_mangling :
    switchToAccount quoteEnv quoteDb "b@x.com"
      = { ok := false, db := quoteDb, writes := 0 }
    ∧ (switchToAccount quoteEnv quoteDb "a@x.com").ok = true
    ∧ (switchToAccount quoteEnv quoteDb "a@x.com").writes = 1
    ∧ (switchToAccount quoteEnv quoteDb "a@x.com").db idKey
      = some "\x7bemail:a@x.com\x7d"
    ∧ (switchToAccount quoteEnv quoteDb "a@x.com").db idKey
      ≠ some "\x7b\"email\":\"a@x.com\"\x7d" := by
  refine ⟨rfl, rfl, rfl, by decide, by decide⟩

/-! ## C4 -/

/-- C4: `captureCurrentToken` persists the record under the lowercased email
extracted from the active identity (not the caller's argument), leaves every
other key unchanged, warns (non-fatally) when the extracted email differs from
the argument, and still completes successfully. -/
theorem captureCurrentToken_spec (env : TokenEnv) (st : Store)
    (email e k : String)
    (hauth : env.authStatus = some { email := some e, apiKey := some k })
    (he : (jsToLower e) ≠ "") (hk : k ≠ "") :
    (captureCurrentToken env st email).success = true
    ∧ (captureCurrentToken env st email).store (tokenKey (jsToLower e))
      = some (.cred
          { accessToken := k,
            refreshToken := match env.oauthRefresh with
              | some "" => none
              | x => x,
            expiresAt := env.now + 3300000, email := (jsToLower e),
            createdAt := env.now })
    ∧ (∀ k', k' ≠ tokenKey (jsToLower e) →
        (captureCurrentToken env st email).store k' = st k')
    ∧ ((jsToLower email) ≠ (jsToLower e) →
        (captureCurrentToken env st email).warned = true) := by
  have hcap : captureCurrentToken env st email
      = { success := true,
          store := storeSet st (tokenKey (jsToLower e))
            (.cred { accessToken := k,
                     refreshToken := match env.oauthRefresh with
                       | some "" => none
                       | x => x,
                     expiresAt := env.now + 3300000, email := (jsToLower e),
                     createdAt := env.now }),
          warned := decide ((jsToLower email) ≠ (jsToLower e)) } := by
    simp only [captureCurrentToken, hauth, Option.map_some']
    rw [if_neg (by simp [he, hk])]
  rw [hcap]
  refine ⟨rfl, storeSet_same _ _ _, ?_, ?_⟩
  · intro k' hk'
    exact storeSet_other _ _ _ _ hk'
  · intro hne
    simp [hne]

/-- C4 witness: active identity `A@X.com` with a differing argument
`b@x.com`. -/
theorem captureCurrentToken_spec_witness :
    (captureCurrentToken
      { now := 0, fetchRefresh := fun _ => none, dbFile := none,
        authStatus := some { email := some "A@X.com", apiKey := some "key123" },
        oauthRefresh := none }
      (fun _ => none) "b@x.com").success = true
    ∧ (captureCurrentToken
        { now := 0, fetchRefresh := fun _ => none, dbFile := none,
          authStatus := some { email := some "A@X.com", apiKey := some "key123" },
          oauthRefresh := none }
        (fun _ => none) "b@x.com").store (tokenKey (jsToLower "A@X.com"))
      = some (.cred
          { accessToken := "key123",
            refreshToken := match (none : Option String) with
              | some "" => none
              | x => x,
            expiresAt := (0 : Int) + 3300000, email := (jsToLower "A@X.com"),
            createdAt := 0 })
    ∧ (∀ k', k' ≠ tokenKey (jsToLower "A@X.com") →
        (captureCurrentToken
          { now := 0, fetchRefresh := fun _ => none, dbFile := none,
            authStatus := some { email := some "A@X.com", apiKey := some "key123" },
            oauthRefresh := none }
          (fun _ => none) "b@x.com").store k' = (fun _ => none : Store) k')
    ∧ ((jsToLower "b@x.com") ≠ (jsToLower "A@X.com") →
        (captureCurrentToken
          { now := 0, fetchRefresh := fun _ => none, dbFile := none,
            authStatus := some { email := some "A@X.com", apiKey := some "key123" },
            oauthRefresh := none }
          (fun _ => none) "b@x.com").warned = true) :=
  captureCurrentToken_spec
    { now := 0, fetchRefresh := fun _ => none, dbFile := none,
      authStatus := some { email := some "A@X.com", apiKey := some "key123" },
      oauthRefresh := none }
    (fun _ => none) "b@x.com" "A@X.com" "key123" rfl (by decide) (by decide)

/-! ## C5 -/

theorem sorted_getLast?_max :
    ∀ (l : List (Nat × String)), l.Sorted leIdx →
      ∀ x, l.getLast? = some x → ∀ y ∈ l, y.1 ≤ x.1 := by
  intro l
  induction l with
  | nil => intro _ x hx; cases hx
  | cons a t ih =>
    intro hs x hx y hy
    cases t with
    | nil =>
      have hxa : a = x := by
        simpa using hx
      have hya : y = a := by
        simpa using hy
      subst hxa
      subst hya
      exact Nat.le_refl _
    | cons b t' =>
      rw [List.getLast?_cons_cons] at hx
      rcases List.mem_cons.mp hy with rfl | hy'
      · have hxmem : x ∈ b :: t' := by
          obtain ⟨hne, rfl⟩ := List.mem_getLast?_eq_getLast (Option.mem_def.mpr hx)
          exact List.getLast_mem hne
        exact (List.sorted_cons.mp hs).1 x hxmem
      · exact ih (List.sorted_cons.mp hs).2 x hx y hy'

/-- The last element of the index-sorted list is an element with maximal
offset. -/
theorem sortIdx_getLast?_spec {l : List (Nat × String)} {x : Nat × String}
    (hx : (sortIdx l).getLast? = some x) :
    x ∈ l ∧ ∀ y ∈ l, y.1 ≤ x.1 := by
  have hsorted : (sortIdx l).Sorted leIdx := List.sorted_insertionSort leIdx l
  have hperm : List.Perm (sortIdx l) l := List.perm_insertionSort leIdx l
  have hxmem : x ∈ sortIdx l := by
    obtain ⟨hne, rfl⟩ := List.mem_getLast?_eq_getLast (Option.mem_def.mpr hx)
    exact List.getLast_mem hne
  refine ⟨hperm.mem_iff.mp hxmem, ?_⟩
  intro y hy
  exact sorted_getLast?_max _ hsorted x hx y (hperm.mem_iff.mpr hy)

/-- C5: whenever the byte-scan fallback returns a result, its access token is
a match with the greatest byte offset among all access-token-shaped matches,
and its refresh token (when present) is a match with the greatest byte offset
among all refresh-token-shaped matches. -/
theorem extractTokensFromDb_last_offset (content : List Char)
    (r : ExtractResult)
    (h : extractTokensFromDb (some (.ok content)) = some r) :
    (∃ i, (i, r.accessToken) ∈ allTokens content
      ∧ ∀ p ∈ allTokens content, p.1 ≤ i)
    ∧ (∀ rt, r.refreshToken = some rt →
        ∃ j, (j, rt) ∈ refreshTokens content
          ∧ ∀ p ∈ refreshTokens content, p.1 ≤ j) := by
  simp only [extractTokensFromDb] at h
  cases hl : (sortIdx (allTokens content)).getLast? with
  | none => rw [hl] at h; cases h
  | some last =>
    rw [hl] at h
    cases h
    obtain ⟨hmem, hmax⟩ := sortIdx_getLast?_spec hl
    constructor
    · exact ⟨last.1, by simpa using hmem, hmax⟩
    · intro rt hrt
      cases hr2 : (sortIdx (refreshTokens content)).getLast? with
      | none =>
        rw [hr2] at hrt
        simp at hrt
      | some q =>
        rw [hr2] at hrt
        simp only [Option.map_some'] at hrt
        obtain ⟨hqmem, hqmax⟩ := sortIdx_getLast?_spec hr2
        cases hrt
        exact ⟨q.1, by simpa using hqmem, hqmax⟩

/-- The file content of the C5 witness: bearer-token-shaped matches at byte
offsets 100 and 500 and nothing else. -/
def contentW : List Char :=
  List.replicate 100 ' ' ++ "ya29.".toList ++ List.replicate 100 'a'
    ++ List.replicate 295 ' ' ++ "ya29.".toList ++ List.replicate 100 'b'

/-- C5 witness: on `contentW` the scan returns the token at offset 500. -/
theorem extractTokensFromDb_last_offset_witness :
    extractTokensFromDb (some (.ok contentW))
      = some { accessToken := String.mk ("ya29.".toList ++ List.replicate 100 'b'),
               refreshToken := none }
    ∧ ((∃ i, (i, ({ accessToken := String.mk ("ya29.".toList ++ List.replicate 100 'b'),
                    refreshToken := none } : ExtractResult).accessToken)
            ∈ allTokens contentW
          ∧ ∀ p ∈ allTokens contentW, p.1 ≤ i)
      ∧ (∀ rt, ({ accessToken := String.mk ("ya29.".toList ++ List.replicate 100 'b'),
                  refreshToken := none } : ExtractResult).refreshToken = some rt →
          ∃ j, (j, rt) ∈ refreshTokens contentW
            ∧ ∀ p ∈ refreshTokens contentW, p.1 ≤ j)) :=
  ⟨by set_option maxRecDepth 100000 in rfl,
   extractTokensFromDb_last_offset contentW
     { accessToken := String.mk ("ya29.".toList ++ List.replicate 100 'b'),
       refreshToken := none }
     (by set_option maxRecDepth 100000 in rfl)⟩

/-! ## C6 -/

/-- C6: each extraction strategy returns a result or `null` and never lets an
exception reach its caller: a decoder error escaping `findField` inside the
`try` of `extractTokensWithProtobuf` degrades to a `null` result, a throwing
`JSON.parse` inside `getAuthStatus` degrades to `null`, and a throwing file
read inside `extractTokensFromDb` degrades to `null`. -/
theorem strategies_no_raise :
    (∀ (sv : Option String) (e : String), protoBody sv = .error e →
      extractTokensWithProtobuf sv = none)
    ∧ (∀ (fe : Bool) (row : Option String)
        (jp : String → Except String AuthJson) (e : String),
        authBody fe row jp = .error e → getAuthStatus fe row jp = none)
    ∧ (∀ (e : String), extractTokensFromDb (some (.error e)) = none) := by
  refine ⟨?_, ?_, ?_⟩
  · intro sv e h
    simp [extractTokensWithProtobuf, h]
  · intro fe row jp e h
    simp [getAuthStatus, h]
  · intro e
    rfl

/-- C6 witness: the state blob `"Aw=="` decodes to the single byte `0x03`,
whose tag has wire type 3, so the decoder throws `Unknown wire type: 3` inside
the strategy; the strategy still returns `null`.  A throwing `JSON.parse` and
a throwing file read likewise yield `null`. -/
theorem strategies_no_raise_witness :
    extractTokensWithProtobuf (some "Aw==") = none
    ∧ getAuthStatus true (some "\x7b") (fun _ => .error "Unexpected token") = none
    ∧ extractTokensFromDb (some (.error "EACCES")) = none :=
  ⟨strategies_no_raise.1 (some "Aw==") "Unknown wire type: 3"
    (by
      have h1 : findFieldLoop [3] 6 0 = .error "Unknown wire type: 3" := by
        rw [findFieldLoop]
        rfl
      have h2 : b64decode (jsTrim "Aw==") = [3] := by decide
      simp [protoBody, findField, h2, h1]),
   strategies_no_raise.2.1 true (some "\x7b") (fun _ => .error "Unexpected token")
     "Unexpected token" rfl,
   strategies_no_raise.2.2 "EACCES"⟩

/-! ## C7 -/

/-- C7: `skipField` with wire type outside {0,1,2,5} fails with the
unknown-wire-type error; at the start of a well-formed field value it advances
exactly past that one value; and repeated tag-read plus `skipField` from
offset 0 over a well-formed message terminates exactly at the buffer
length. -/
theorem skipField_spec :
    (∀ (data : Bytes) (offset wireType : Nat),
      wireType ≠ 0 → wireType ≠ 1 → wireType ≠ 2 → wireType ≠ 5 →
      skipField data offset wireType
        = .error ("Unknown wire type: " ++ toString wireType))
    ∧ (∀ (f : PField), f.wfb = true → ∀ (pre rest : List Nat),
        skipField (pre ++ (f.val.enc ++ rest)) pre.length f.val.wire
          = .ok (pre.length + f.val.enc.length))
    ∧ (∀ (fields : List PField), (∀ f ∈ fields, f.wfb = true) →
        scanFields (encodeMessage fields) 0
          = .ok (encodeMessage fields).length) := by
  refine ⟨?_, ?_, ?_⟩
  · intro data offset wireType h0 h1 h2 h5
    unfold skipField
    rw [if_neg h0, if_neg h1, if_neg h2, if_neg h5]
  · intro f hwf pre rest
    exact skipField_encodeVal f hwf pre rest
  · intro fields hwf
    have h := scanFields_encode fields [] hwf
    simpa using h

/-- C7 witness: wire type 3 is rejected; a length-delimited value is skipped
in one step; a four-field message (one field of each wire type) is scanned to
exactly its length. -/
theorem skipField_spec_witness :
    skipField [] 0 3 = .error ("Unknown wire type: " ++ toString 3)
    ∧ skipField ([9] ++ ((FieldVal.ld [7, 7]).enc ++ [5]))
        ([(9 : Nat)] : List Nat).length (FieldVal.ld [7, 7]).wire
      = .ok (([(9 : Nat)] : List Nat).length + (FieldVal.ld [7, 7]).enc.length)
    ∧ scanFields (encodeMessage
        [⟨1, .vint 300⟩, ⟨2, .ld [7, 7]⟩,
         ⟨3, .i64 [0, 1, 2, 3, 4, 5, 6, 7]⟩, ⟨4, .i32 [1, 2, 3, 4]⟩]) 0
      = .ok (encodeMessage
          [⟨1, .vint 300⟩, ⟨2, .ld [7, 7]⟩,
           ⟨3, .i64 [0, 1, 2, 3, 4, 5, 6, 7]⟩, ⟨4, .i32 [1, 2, 3, 4]⟩]).length :=
  ⟨skipField_spec.1 [] 0 3 (by decide) (by decide) (by decide) (by decide),
   skipField_spec.2.1 ⟨2, .ld [7, 7]⟩ (by decide) [9] [5],
   skipField_spec.2.2
     [⟨1, .vint 300⟩, ⟨2, .ld [7, 7]⟩,
      ⟨3, .i64 [0, 1, 2, 3, 4, 5, 6, 7]⟩, ⟨4, .i32 [1, 2, 3, 4]⟩]
     (by decide)⟩

/-! ## C8 -/

theorem firstLD_append (pre l : List PField) (target : Nat)
    (h : ∀ f ∈ pre, f.num ≠ target) :
    firstLD (pre ++ l) target = firstLD l target := by
  induction pre with
  | nil => rfl
  | cons g gs ih =>
    obtain ⟨gn, gv⟩ := g
    have hg : gn ≠ target := by
      have := h ⟨gn, gv⟩ (by simp)
      simpa using this
    have hstep : firstLD ((⟨gn, gv⟩ : PField) :: (gs ++ l)) target
        = firstLD (gs ++ l) target := by
      simp only [firstLD, List.findSome?_cons]
      cases gv with
      | ld p => simp [hg]
      | vint n => rfl
      | i64 bs => rfl
      | i32 bs => rfl
    rw [List.cons_append, hstep]
    exact ih fun f hf => h f (by simp [hf])

/-- C8: over a well-formed message, `findField` returns the payload of the
first length-delimited occurrence of the target field number (absent when
there is none), and the payload is unchanged by inserting arbitrary
well-formed unrelated fields before or after the target field. -/
theorem findField_spec :
    (∀ (fields : List PField) (target : Nat),
      (∀ f ∈ fields, f.wfb = true) →
      findField (encodeMessage fields) target = .ok (firstLD fields target))
    ∧ (∀ (pre post : List PField) (p : Bytes) (target : Nat),
        (∀ f ∈ pre ++ post, f.wfb = true) →
        (∀ f ∈ pre ++ post, f.num ≠ target) →
        findField (encodeMessage (pre ++ ⟨target, .ld p⟩ :: post)) target
          = .ok (some p)) := by
  constructor
  · intro fields target hwf
    exact findField_encode fields target hwf
  · intro pre post p target hwf hnum
    have hwf2 : ∀ f ∈ pre ++ (⟨target, FieldVal.ld p⟩ :: post), f.wfb = true := by
      intro f hf
      rcases List.mem_append.mp hf with h1 | h2
      · exact hwf f (List.mem_append_left _ h1)
      · rcases List.mem_cons.mp h2 with rfl | h3
        · rfl
        · exact hwf f (List.mem_append_right _ h3)
    rw [findField_encode _ target hwf2]
    rw [firstLD_append pre _ target
      (fun f hf => hnum f (List.mem_append_left _ hf))]
    simp [firstLD, List.findSome?_cons]

/-- C8 witness: the target payload `[65, 66]` at field 7 is found first, and
is unchanged by an unrelated varint field before it and an unrelated 32-bit
field after it. -/
theorem findField_spec_witness :
    findField (encodeMessage [⟨7, .ld [65, 66]⟩]) 7
      = .ok (firstLD [⟨7, .ld [65, 66]⟩] 7)
    ∧ findField (encodeMessage
        ([⟨1, .vint 5⟩] ++ (⟨7, FieldVal.ld [65, 66]⟩ : PField)
          :: [⟨2, .i32 [1, 2, 3, 4]⟩])) 7
      = .ok (some [65, 66]) :=
  ⟨findField_spec.1 [⟨7, .ld [65, 66]⟩] 7 (by decide),
   findField_spec.2 [⟨1, .vint 5⟩] [⟨2, .i32 [1, 2, 3, 4]⟩] [65, 66] 7
     (by decide) (by decide)⟩

/-! ## C9 -/

/-- UTF-8 bytes of an ASCII string. -/
def strBytes (s : String) : List Nat := s.toList.map Char.toNat

/-- The inner message `{1: "T", 3: "R"}` of the round-trip claim. -/
def innerTR : Bytes :=
  encodeMessage [⟨1, .ld (strBytes "T")⟩, ⟨3, .ld (strBytes "R")⟩]

/-- The outer wrapper: the inner message as length-delimited field 6. -/
def outerTR : Bytes := encodeMessage [⟨6, .ld innerTR⟩]

/-- C9: encoding `{accessToken:"T", refreshToken:"R"}` in the two-level TLV
shape and decoding with `findField` followed by `parseOAuthTokenInfo` yields
exactly the original pair. -/
theorem tlv_roundtrip :
    findField outerTR 6 = .ok (some innerTR)
    ∧ parseOAuthTokenInfo innerTR
      = { accessToken := some (strBytes "T"),
          refreshToken := some (strBytes "R") } := by
  constructor
  · have h := findField_encode [⟨6, .ld innerTR⟩] 6 (by decide)
    rw [show outerTR = encodeMessage [⟨6, .ld innerTR⟩] from rfl, h]
    rfl
  · have h := parseOAuthTokenInfo_encode
      [⟨1, .ld (strBytes "T")⟩, ⟨3, .ld (strBytes "R")⟩] (by decide)
    rw [show innerTR
      = encodeMessage [⟨1, .ld (strBytes "T")⟩, ⟨3, .ld (strBytes "R")⟩]
      from rfl, h]
    rfl

end ReRevolve
